import Mathlib

/-!
Verification development for the `bfrest` caching engine of
tubalcaine/bigfix-mobile-enterprise.

The development shallowly embeds the Go code of `pkg/bfrest/bfcache.go` and
`pkg/bfrest/bfconnection.go` into Lean:

* `uint64` values are modelled as `Nat`; the two places where 64-bit machine
  arithmetic can differ from arithmetic over ℕ/ℤ are modelled exactly:
  the wrapping addition `cm.MaxAge + cm.BaseMaxAge` in the refresh path
  (explicit `% 2^64`), and the conversion `int64(item.MaxAge)` used by the
  expiry comparisons (`toInt64` reinterprets the high range as negative).
  Subtraction of Unix timestamps (`now - timestamp` over `int64`) cannot
  overflow for representable clock values and is modelled over ℤ.
* `sync.Map` is modelled as an association list with replace-on-store
  (`mstore` / `mfind`); readers of the model observe one snapshot per load,
  matching the atomic load/store discipline of the source.
* The network, the XML decoder (`xml.Unmarshal` into the `BESAPI`/`BES`
  schema structs), the JSON encoder (`json.Marshal`) and the MD5 digest are
  external effects; they are parameters of the model (`World`), so every
  theorem quantifies over their behaviour.  `md5Hex` stands for
  `hex.EncodeToString(md5.Sum(raw))`.
* Sequential semantics: each operation (AddServer / Get / sweep) runs to
  completion on an explicit state, mirroring one interleaving of the
  concurrent program.
-/

/-! ## Character-list utilities (models of Go's `strings` helpers) -/

/-- Does `p` occur as a prefix of `l`?  (model of the prefix test underlying
`strings.Contains` / `strings.Index`). -/
def isPref : List Char → List Char → Bool
  | [], _ => true
  | _ :: _, [] => false
  | p :: ps, c :: cs => p == c && isPref ps cs

/-- Index of the first occurrence of the (nonempty) pattern `pat` in `l`,
if any. -/
def findSub (pat : List Char) : List Char → Option Nat
  | [] => if pat.isEmpty then some 0 else none
  | c :: cs =>
    if isPref pat (c :: cs) then some 0
    else match findSub pat cs with
      | some i => some (i + 1)
      | none => none

/-- Model of Go `strings.Contains` on character lists. -/
def containsSub (l pat : List Char) : Bool :=
  (findSub pat l).isSome

/-- Split a character list on a single separator character
(model of Go `strings.Split` with a one-character separator). -/
def splitOnChar (sep : Char) : List Char → List (List Char)
  | [] => [[]]
  | c :: cs =>
    if c == sep then [] :: splitOnChar sep cs
    else match splitOnChar sep cs with
      | [] => [[c]]
      | seg :: rest => (c :: seg) :: rest

/-- Split at the first occurrence of `sep`: returns the part before and the
part after (model of Go `strings.Cut`); `none` when `sep` does not occur. -/
def cutAtChar (sep : Char) : List Char → Option (List Char × List Char)
  | [] => none
  | c :: cs =>
    if c == sep then some ([], cs)
    else match cutAtChar sep cs with
      | some (a, b) => some (c :: a, b)
      | none => none

/-- Split at the first occurrence of the multi-character pattern `pat`:
the part before and the part after the pattern. -/
def cutAtSub (pat : List Char) (l : List Char) : Option (List Char × List Char) :=
  match findSub pat l with
  | none => none
  | some i => some (l.take i, l.drop (i + pat.length))

/-- String wrapper for `containsSub`. -/
def strContains (s pat : String) : Bool :=
  containsSub s.data pat.data

/-- String wrapper for `splitOnChar`. -/
def strSplitChar (s : String) (sep : Char) : List String :=
  (splitOnChar sep s.data).map String.mk

/-! ## URL model

A restricted model of Go's `net/url.Parse` for the absolute
`scheme://host[:port][/path][?query]` URLs this system handles.  On this
grammar `url.Parse` never returns an error; `Scheme`, `Host` (which keeps the
`:port` suffix), `Path` and `RawQuery` are split exactly as below.  A string
without `://` is parsed by Go as a relative reference: empty scheme and host,
everything (up to `?`) in `Path`. -/

structure ParsedURL where
  scheme : String
  host : String
  path : String
  rawQuery : String
deriving Repr, DecidableEq

/-- Model of `url.Parse` on the restricted grammar (total; Go's error branch
is unreachable on this domain). -/
def parseURLm (s : String) : ParsedURL :=
  let (schemeCs, restCs) :=
    match cutAtSub "://".data s.data with
    | some (a, b) => (a, b)
    | none => ([], s.data)
  if (cutAtSub "://".data s.data).isSome then
    -- absolute URL: authority runs to the first '/' or '?'
    let (beforeQ, query) :=
      match cutAtChar '?' restCs with
      | some (a, b) => (a, b)
      | none => (restCs, [])
    let (host, path) :=
      match cutAtChar '/' beforeQ with
      | some (a, b) => (a, '/' :: b)
      | none => (beforeQ, [])
    ⟨String.mk schemeCs, String.mk host, String.mk path, String.mk query⟩
  else
    -- relative reference: no scheme, no host
    let (p, q) :=
      match cutAtChar '?' s.data with
      | some (a, b) => (a, b)
      | none => (s.data, [])
    ⟨"", "", String.mk p, String.mk q⟩

/-- Model of `url.ParseQuery` followed by `Values.Get(key)`: the first value
bound to `key`, or `""` when the key is absent.  Each `&`-separated segment
is cut at its first `=` (percent-unescaping is identity on the domain used
here). -/
def queryGetParam (rawQuery key : String) : String :=
  let segs := splitOnChar '&' rawQuery.data
  let rec go : List (List Char) → String
    | [] => ""
    | seg :: rest =>
      if seg.isEmpty then go rest
      else
        match cutAtChar '=' seg with
        | some (k, v) => if String.mk k == key then String.mk v else go rest
        | none => if String.mk seg == key then "" else go rest
  go segs

/-! ## Machine-integer helpers -/

/-- `2^64`, the modulus of Go's `uint64`. -/
def u64Mod : Nat := 2 ^ 64

/-- Model of Go's conversion `int64(n)` for a `uint64` value `n`:
reinterpret the low 64 bits as a signed two's-complement value. -/
def toInt64 (n : Nat) : Int :=
  if n % u64Mod < 2 ^ 63 then ((n % u64Mod : Nat) : Int)
  else ((n % u64Mod : Nat) : Int) - (u64Mod : Int)

example : toInt64 300 = 300 := by decide
example : toInt64 (2 ^ 64 - 1) = -1 := by decide
example : toInt64 (2 ^ 63) = -(2 ^ 63) := by decide

/-! ## Association-list model of `sync.Map` -/

/-- `sync.Map.Load`: the value currently bound to `k`, if any. -/
def mfind {α : Type} (m : List (String × α)) (k : String) : Option α :=
  (m.find? (fun p => p.1 == k)).map (fun p => p.2)

/-- `sync.Map.Store`: atomically (re)bind `k` to `v`. -/
def mstore {α : Type} (m : List (String × α)) (k : String) (v : α) :
    List (String × α) :=
  (k, v) :: m.filter (fun p => p.1 != k)

theorem mfind_mstore_self {α : Type} (m : List (String × α)) (k : String) (v : α) :
    mfind (mstore m k v) k = some v := by
  simp [mfind, mstore]

theorem mfind_mstore_ne {α : Type} (m : List (String × α)) (k k' : String) (v : α)
    (h : k' ≠ k) : mfind (mstore m k v) k' = mfind m k' := by
  have hk : ((k, v).1 == k') = false := by
    simp only [beq_eq_false_iff_ne, ne_eq]
    exact fun hkk => h hkk.symm
  simp only [mfind, mstore]
  rw [List.find?_cons_of_neg _ (by simp [hk])]
  induction m with
  | nil => rfl
  | cons p ps ih =>
    by_cases hp : p.1 = k
    · have h2 : (p.1 == k') = false := by
        simp only [beq_eq_false_iff_ne, ne_eq, hp]
        exact fun hkk => h hkk.symm
      rw [List.filter_cons_of_neg (by simp [bne, hp]),
          List.find?_cons_of_neg _ (by simp [h2])]
      exact ih
    · have h1 : (p.1 != k) = true := by simpa [bne_iff_ne] using hp
      by_cases h2 : p.1 = k'
      · have hf : (p.1 == k') = true := by simp [h2]
        simp only [List.filter_cons, h1, if_true]
        simp [List.find?_cons, hf]
      · have hf : (p.1 == k') = false := by simp [h2]
        simp only [List.filter_cons, h1, if_true]
        simpa [List.find?_cons, hf] using ih

/-- Membership in a stored map: every binding is the new one or an old one. -/
theorem mem_mstore {α : Type} {m : List (String × α)} {k : String} {v : α}
    {p : String × α} (h : p ∈ mstore m k v) : p = (k, v) ∨ p ∈ m := by
  rcases List.mem_cons.mp h with h1 | h2
  · exact Or.inl h1
  · exact Or.inr (List.mem_filter.mp h2).1

/-! ## Data model (`bfcache.go`, `bfconnection.go`) -/

/-- `CacheItem` (bfcache.go:48-54): the result of a single BigFix GET,
stored in a shard's `CacheMap`.  These are exactly the five fields of the
source struct. -/
structure CacheItem where
  timestamp : Int
  json : String
  maxAge : Nat
  baseMaxAge : Nat
  contentHash : String
deriving Repr, DecidableEq

/-- Connection pool (bfconnection.go:64-69): the buffered channel is modelled
by its number of available connections. -/
structure Pool where
  avail : Nat
  size : Nat
  closed : Bool
deriving Repr, DecidableEq

/-- `NewPool` (bfconnection.go:72-95): rejects non-positive sizes, otherwise
fills the channel with `size` fresh connections. -/
def newPool (size : Int) : Except String Pool :=
  if size ≤ 0 then .error "size value too small"
  else .ok ⟨size.toNat, size.toNat, false⟩

/-- `Pool.Acquire` (bfconnection.go:103-112).  `.error "blocked"` stands for
the Go caller blocking forever on an empty channel (that call never returns,
so no theorem is stated about that branch). -/
def poolAcquire (p : Pool) : Except String Pool :=
  if p.closed then .error "pool is closed"
  else if p.avail = 0 then .error "blocked"
  else .ok ⟨p.avail - 1, p.size, p.closed⟩

/-- `Pool.Release` (bfconnection.go:115-125): a closed pool drops the
connection, otherwise it is returned to the channel. -/
def poolRelease (p : Pool) : Pool :=
  if p.closed then p else ⟨p.avail + 1, p.size, p.closed⟩

/-- `BigFixServerCache` (bfcache.go:31-38): one per-upstream shard.
Credentials are carried for fidelity but unused by the cache logic. -/
structure BigFixServerCache where
  serverName : String
  serverUser : String
  serverPass : String
  cpool : Option Pool
  cacheMap : List (String × CacheItem)
  maxAge : Nat
deriving Repr, DecidableEq

/-- `BigFixCache` (bfcache.go:23-27): the singleton two-level cache. -/
structure BigFixCache where
  serverCache : List (String × BigFixServerCache)
  maxAge : Nat
  maxCacheLifetime : Nat
deriving Repr, DecidableEq

/-! ## External effects -/

/-- Outcome of one upstream HTTP round trip. -/
structure HttpResponse where
  status : Nat
  body : String
deriving Repr, DecidableEq

/-- What the transport delivers for a request: either a transport-level
error (request creation / `Do` / body read failed) or a response. -/
inductive FetchOutcome where
  | transportError (msg : String)
  | response (r : HttpResponse)
deriving Repr, DecidableEq

/-- The external world a fetch interacts with: the upstream (per URL), the
XML decoder and JSON encoder for the two schema structs, the MD5 digest, and
the clock.  `besapiUnmarshal body = none` models `xml.Unmarshal` failing;
`some v` yields the decoded struct (represented opaquely by a string), which
`besapiMarshal` then serializes (or fails). -/
structure World where
  fetch : String → FetchOutcome
  besapiUnmarshal : String → Option String
  besapiMarshal : String → Option String
  besUnmarshal : String → Option String
  besMarshal : String → Option String
  md5Hex : String → String
  now : Int

/-- `BFConnection.Get` (bfconnection.go:20-40): issues the GET and returns
the response body as a string.  Note: the response status code is never
examined; any delivered body is returned with a nil error. -/
def connGet (o : FetchOutcome) : Except String String :=
  match o with
  | .transportError e => .error e
  | .response r => .ok r.body

/-- The `/api/query` + `output=json`/`format=json` detection of
`retrieveBigFixData` (bfcache.go:340-349). -/
def isJsonQueryURL (urlStr : String) : Bool :=
  let u := parseURLm urlStr
  if strContains u.path "/api/query" then
    let outputFormat := queryGetParam u.rawQuery "output"
    let formatParam := queryGetParam u.rawQuery "format"
    outputFormat == "json" || formatParam == "json"
  else false

/-- The body-transform step of `retrieveBigFixData` (bfcache.go:340-401):
for a `/api/query` URL with a JSON output parameter the body is used
verbatim; otherwise the body is decoded as XML through the `BESAPI` or `BES`
schema (chosen by a substring test on the body) and re-serialized to JSON.
Each `Except.error` corresponds to one release-and-return error path of the
source. -/
def transformBody (w : World) (urlStr raw : String) : Except String String :=
  if isJsonQueryURL urlStr then .ok raw
  else if strContains raw "BESAPI" then
    match w.besapiUnmarshal raw with
    | none => .error "xml unmarshal failed"
    | some v =>
      match w.besapiMarshal v with
      | none => .error "json marshal failed"
      | some jStr => .ok jStr
  else
    match w.besUnmarshal raw with
    | none => .error "xml unmarshal failed"
    | some v =>
      match w.besMarshal v with
      | none => .error "json marshal failed"
      | some jStr => .ok jStr

/-- `retrieveBigFixData` (bfcache.go:325-414): acquire a connection, GET the
URL, transform the body (`transformBody`), hash the raw bytes, and return a
fresh item carrying the shard's TTL.  The connection is released before
every return that follows a successful acquire (`sc'` below), matching the
`sc.cpool.Release(conn)` call on each such path of the source.  Returns the
result together with the shard as the fetch leaves it. -/
def retrieveBigFixData (w : World) (urlStr : String) (sc : BigFixServerCache) :
    Except String CacheItem × BigFixServerCache :=
  match sc.cpool with
  | none => (.error "nil pool", sc)
  | some p0 =>
    match poolAcquire p0 with
    | .error e => (.error e, sc)
    | .ok p1 =>
      let sc' := { sc with cpool := some (poolRelease p1) }
      match connGet (w.fetch urlStr) with
      | .error e => (.error e, sc')
      | .ok rawResponse =>
        match transformBody w urlStr rawResponse with
        | .error e => (.error e, sc')
        | .ok jStr =>
          (.ok ⟨w.now, jStr, sc.maxAge, sc.maxAge, w.md5Hex rawResponse⟩, sc')

/-! ## Cache operations (`bfcache.go`) -/

/-- `getBaseUrl` (bfcache.go:134-151): parse the full URL, split the host at
`":"` (taking the pieces at indices 0 and 1), and rebuild
`scheme + "://" + host + ":" + port`.  When the host carries no port the
`port` variable keeps its initial value `""`. -/
def getBaseUrl (fullURL : String) : String :=
  let parsedURL := parseURLm fullURL
  let scheme := parsedURL.scheme
  let host0 := parsedURL.host
  let hp :=
    if strContains host0 ":" then
      let hostPort := strSplitChar host0 ':'
      (hostPort.getD 0 "", hostPort.getD 1 "")
    else (host0, "")
  scheme ++ "://" ++ hp.1 ++ ":" ++ hp.2

example : getBaseUrl "https://bigfix.example.com:52311/api/computers?x=1" =
    "https://bigfix.example.com:52311" := by decide
example : getBaseUrl "https://bigfix.example.com/api/computers" =
    "https://bigfix.example.com:" := by decide

/-- `AddServer` (bfcache.go:95-128): creates a shard for the base URL of the
given URL unless one exists.  The `NewPool` error is discarded by the source
(`newpool, _ := NewPool(...)`), so a non-positive pool size stores a shard
with a nil pool.  A zero `maxAge` falls back to the cache default.  On a
duplicate the cache is left untouched and an error is returned. -/
def addServer (cache : BigFixCache) (url username passwd : String)
    (poolSize : Int) (maxAge : Nat) : Except String BigFixCache :=
  let baseURL := getBaseUrl url
  match mfind cache.serverCache baseURL with
  | some _ => .error ("server cache " ++ baseURL ++ " already exists")
  | none =>
    let newpool := (newPool poolSize).toOption
    let serverMaxAge := if maxAge = 0 then cache.maxAge else maxAge
    let scInstance : BigFixServerCache :=
      ⟨baseURL, username, passwd, newpool, [], serverMaxAge⟩
    .ok { cache with
          serverCache := mstore cache.serverCache baseURL scInstance }

/-- The refresh condition of `Get` (bfcache.go:214-216): the item needs a
refresh when its body was cleared or it has outlived its TTL (note the
`int64(cm.MaxAge)` conversion in the source comparison). -/
def needsRefreshB (now : Int) (cm : CacheItem) : Bool :=
  (cm.json == "") || decide (now - cm.timestamp > toInt64 cm.maxAge)

/-- The refreshed entry `Get` publishes (bfcache.go:234-289): when the fresh
hash equals a non-empty stored hash, extend `MaxAge` by `BaseMaxAge`
(wrapping `uint64` addition) capped at `MaxCacheLifetime` and keep the old
hash; otherwise reset `MaxAge` to `BaseMaxAge` and take the fresh hash. -/
def refreshedItem (maxCacheLifetime : Nat) (now : Int)
    (cm newItem : CacheItem) : CacheItem :=
  let hashMatches := (cm.contentHash != "") &&
    (newItem.contentHash == cm.contentHash)
  if hashMatches then
    let newMaxAge := (cm.maxAge + cm.baseMaxAge) % u64Mod
    let capped :=
      if newMaxAge > maxCacheLifetime then maxCacheLifetime else newMaxAge
    ⟨now, newItem.json, capped, cm.baseMaxAge, cm.contentHash⟩
  else
    ⟨now, newItem.json, cm.baseMaxAge, cm.baseMaxAge, newItem.contentHash⟩

/-- `Get` (bfcache.go:175-319): locate the shard by base URL, look the full
URL up in its map; on a cold miss fetch and store; on a present entry that
needs refresh fetch, merge via `refreshedItem` and store; otherwise return
the stored entry unchanged (the source hit path performs no write at all).
Returns the result together with the updated cache state. -/
def cacheGet (w : World) (cache : BigFixCache) (url : String) :
    Except String CacheItem × BigFixCache :=
  let baseURL := getBaseUrl url
  match mfind cache.serverCache baseURL with
  | none => (.error ("server cache does not exist for " ++ baseURL), cache)
  | some sc =>
    let putShard : BigFixServerCache → BigFixCache := fun sc' =>
      { cache with serverCache := mstore cache.serverCache baseURL sc' }
    match mfind sc.cacheMap url with
    | none =>
      match retrieveBigFixData w url sc with
      | (.error e, sc') => (.error e, putShard sc')
      | (.ok cm, sc') =>
        (.ok cm, putShard { sc' with cacheMap := mstore sc'.cacheMap url cm })
    | some cm =>
      if needsRefreshB w.now cm then
        match retrieveBigFixData w url sc with
        | (.error e, sc') => (.error e, putShard sc')
        | (.ok newItem, sc') =>
          let updatedItem := refreshedItem cache.maxCacheLifetime w.now cm newItem
          (.ok updatedItem,
           putShard { sc' with cacheMap := mstore sc'.cacheMap url updatedItem })
      else
        (.ok cm, cache)

/-- The per-item decision of the sweeper (bfcache.go:523-535): an expired
item (`now - Timestamp > int64(MaxAge)`) is replaced by a cleared copy with
empty `Json` and all other fields preserved; anything else is untouched. -/
def sweptValue (now : Int) (item : CacheItem) : CacheItem :=
  if now - item.timestamp > toInt64 item.maxAge then
    ⟨item.timestamp, "", item.maxAge, item.baseMaxAge, item.contentHash⟩
  else item

/-- One sweep of a shard (body of the inner `Range` of `sweepExpiredItems`,
bfcache.go:520-539). -/
def sweepShard (now : Int) (sc : BigFixServerCache) : BigFixServerCache :=
  { sc with cacheMap := sc.cacheMap.map (fun p => (p.1, sweptValue now p.2)) }

/-- `sweepExpiredItems` (bfcache.go:514-543): sweep every shard. -/
def sweepExpiredItems (now : Int) (cache : BigFixCache) : BigFixCache :=
  { cache with serverCache := cache.serverCache.map (fun p =>
      (p.1, sweepShard now p.2)) }

/-- `GetCache` (bfcache.go:60-79): singleton constructor.  The state of the
package-level `cacheInstance` variable is passed explicitly; the result is
the returned cache and the new state of the variable.  Zero arguments are
replaced by the defaults 300 and 86400 before the nil check. -/
def getCache (cacheInstance : Option BigFixCache)
    (maxAgeSeconds maxCacheLifetime : Nat) : BigFixCache × Option BigFixCache :=
  let a := if maxAgeSeconds = 0 then 300 else maxAgeSeconds
  let l := if maxCacheLifetime = 0 then 86400 else maxCacheLifetime
  match cacheInstance with
  | some c => (c, some c)
  | none =>
    let c : BigFixCache := ⟨[], a, l⟩
    (c, some c)

/-! ## Operation sequences (for reachability statements) -/

/-- One externally triggered operation on the cache. -/
inductive CacheOp where
  | add (url username passwd : String) (poolSize : Int) (maxAge : Nat)
  | get (w : World) (url : String)
  | sweep (now : Int)

/-- Apply one operation; a failing `AddServer` and the result value of `Get`
leave only their documented state effects. -/
def applyOp (cache : BigFixCache) : CacheOp → BigFixCache
  | .add url u p n m =>
    match addServer cache url u p n m with
    | .ok c' => c'
    | .error _ => cache
  | .get w url => (cacheGet w cache url).2
  | .sweep now => sweepExpiredItems now cache

/-- Run a sequence of operations from an initial state. -/
def runOps (cache : BigFixCache) (ops : List CacheOp) : BigFixCache :=
  ops.foldl applyOp cache

/-! ## General lemmas about the operations -/


/-! ## General lemmas about the operations -/

/-- A fetch never changes the shard it was given: the connection acquired
from the pool is released on every exit path (transport, parse, serialize,
success), and nothing else of the shard is touched. -/
theorem retrieveBigFixData_shard_eq (w : World) (urlStr : String)
    (sc : BigFixServerCache) : (retrieveBigFixData w urlStr sc).2 = sc := by
  unfold retrieveBigFixData
  split
  · rfl
  next p0 hpool =>
    split
    · rfl
    next p1 hacq =>
      have hclosed : p0.closed = false := by
        by_contra hc
        have hc' : p0.closed = true := by
          revert hc; cases p0.closed <;> simp
        simp [poolAcquire, hc'] at hacq
      have havail : p0.avail ≠ 0 := by
        intro h0
        simp [poolAcquire, hclosed, h0] at hacq
      have hp1 : p1 = ⟨p0.avail - 1, p0.size, false⟩ := by
        simp only [poolAcquire, hclosed, Bool.false_eq_true, if_false,
          havail, ite_false] at hacq
        exact (Except.ok.inj hacq).symm
      have hrel : poolRelease p1 = p0 := by
        rw [hp1]
        cases p0 with
        | mk a s c =>
          simp only at havail hclosed
          simp [poolRelease, hclosed,
            Nat.sub_add_cancel (Nat.one_le_iff_ne_zero.mpr havail)]
      have hput : ({ sc with cpool := some (poolRelease p1) }) = sc := by
        rw [hrel, ← hpool]
      split
      · exact hput
      · split
        · exact hput
        · exact hput

/-- A successful fetch returns a fresh item stamped with the model clock, the
shard's TTL for both `MaxAge` and `BaseMaxAge`, and the digest of the raw
body the transport delivered. -/
theorem retrieveBigFixData_ok_fields (w : World) (urlStr : String)
    (sc : BigFixServerCache) (cm : CacheItem)
    (h : (retrieveBigFixData w urlStr sc).1 = .ok cm) :
    cm.timestamp = w.now ∧ cm.maxAge = sc.maxAge ∧ cm.baseMaxAge = sc.maxAge ∧
    ∃ raw, connGet (w.fetch urlStr) = .ok raw ∧
      transformBody w urlStr raw = .ok cm.json ∧
      cm.contentHash = w.md5Hex raw := by
  unfold retrieveBigFixData at h
  split at h
  · exact Except.noConfusion h
  next p0 hpool =>
    split at h
    · exact Except.noConfusion h
    next p1 hacq =>
      split at h
      · exact Except.noConfusion h
      next raw hfetch =>
        split at h
        · exact Except.noConfusion h
        next jStr htrans =>
          injection h with h2
          subst h2
          exact ⟨rfl, rfl, rfl, raw, hfetch, htrans, rfl⟩

/-- `Get` on the refresh path: a stored entry that needs refresh is merged
with the fresh fetch by `refreshedItem` and the result is both returned and
stored back under the same URL. -/
theorem cacheGet_refresh (w : World) (cache : BigFixCache) (url : String)
    (sc : BigFixServerCache) (cm newItem : CacheItem) (sc' : BigFixServerCache)
    (hsc : mfind cache.serverCache (getBaseUrl url) = some sc)
    (hcm : mfind sc.cacheMap url = some cm)
    (href : needsRefreshB w.now cm = true)
    (hret : retrieveBigFixData w url sc = (.ok newItem, sc')) :
    cacheGet w cache url =
      (.ok (refreshedItem cache.maxCacheLifetime w.now cm newItem),
       { cache with serverCache := (mstore cache.serverCache (getBaseUrl url)
           ({ sc' with cacheMap := (mstore sc'.cacheMap url
               (refreshedItem cache.maxCacheLifetime w.now cm newItem)) })) }) := by
  simp only [cacheGet, hsc, hcm, href, hret, if_true]

/-- `Get` on the hit path: a stored entry that is non-empty and unexpired is
returned as-is, and the cache state is completely unchanged. -/
theorem cacheGet_hit (w : World) (cache : BigFixCache) (url : String)
    (sc : BigFixServerCache) (cm : CacheItem)
    (hsc : mfind cache.serverCache (getBaseUrl url) = some sc)
    (hcm : mfind sc.cacheMap url = some cm)
    (hnoref : needsRefreshB w.now cm = false) :
    cacheGet w cache url = (.ok cm, cache) := by
  simp only [cacheGet, hsc, hcm, hnoref, Bool.false_eq_true, if_false]

/-- `Get` on the cold-miss path: with no stored entry the fresh fetch result
is returned and stored verbatim. -/
theorem cacheGet_coldmiss (w : World) (cache : BigFixCache) (url : String)
    (sc : BigFixServerCache) (cm : CacheItem) (sc' : BigFixServerCache)
    (hsc : mfind cache.serverCache (getBaseUrl url) = some sc)
    (hcm : mfind sc.cacheMap url = none)
    (hret : retrieveBigFixData w url sc = (.ok cm, sc')) :
    cacheGet w cache url =
      (.ok cm,
       { cache with serverCache := (mstore cache.serverCache (getBaseUrl url)
           ({ sc' with cacheMap := mstore sc'.cacheMap url cm })) }) := by
  simp only [cacheGet, hsc, hcm, hret]

/-- The `MaxAge` value computed on the hash-match refresh path
(bfcache.go:243-248): the wrapping `uint64` sum of the stored `MaxAge` and
`BaseMaxAge`, capped at `MaxCacheLifetime`. -/
def extendedMaxAge (lifetime a b : Nat) : Nat :=
  let s := (a + b) % u64Mod
  if s > lifetime then lifetime else s

theorem refreshedItem_match (lifetime : Nat) (now : Int) (cm newItem : CacheItem)
    (hhash : cm.contentHash ≠ "" ∧ newItem.contentHash = cm.contentHash) :
    refreshedItem lifetime now cm newItem =
      ⟨now, newItem.json, extendedMaxAge lifetime cm.maxAge cm.baseMaxAge,
       cm.baseMaxAge, cm.contentHash⟩ := by
  have hb : ((cm.contentHash != "") && (newItem.contentHash == cm.contentHash))
      = true := by
    simp [hhash.1, hhash.2]
  simp [refreshedItem, hb, extendedMaxAge]

theorem refreshedItem_differ (lifetime : Nat) (now : Int) (cm newItem : CacheItem)
    (hhash : cm.contentHash = "" ∨ newItem.contentHash ≠ cm.contentHash) :
    refreshedItem lifetime now cm newItem =
      ⟨now, newItem.json, cm.baseMaxAge, cm.baseMaxAge, newItem.contentHash⟩ := by
  have hb : ((cm.contentHash != "") && (newItem.contentHash == cm.contentHash))
      = false := by
    rcases hhash with h1 | h1
    · simp [h1]
    · simp [h1]
  simp [refreshedItem, hb]

instance {e a : Type} [DecidableEq e] [DecidableEq a] :
    DecidableEq (Except e a) := fun x y =>
  match x, y with
  | .error u, .error v =>
    if h : u = v then isTrue (by rw [h])
    else isFalse (by intro hc; injection hc; contradiction)
  | .ok u, .ok v =>
    if h : u = v then isTrue (by rw [h])
    else isFalse (by intro hc; injection hc; contradiction)
  | .error _, .ok _ => isFalse (fun hc => Except.noConfusion hc)
  | .ok _, .error _ => isFalse (fun hc => Except.noConfusion hc)

/-! ## Concrete worlds used by the witnesses -/

/-- A world whose upstream always answers 200 with body `body`, whose digest
function is `fun s => "MD5-" ++ s`, at clock `now`. -/
def mkWorld (body : String) (now : Int) : World :=
  ⟨fun _ => .response ⟨200, body⟩, fun _ => none, fun _ => none,
   fun _ => none, fun _ => none, fun s => "MD5-" ++ s, now⟩

/-- A JSON-format query URL (takes the passthrough branch of the fetch). -/
def urlQ : String := "https://h:1/api/query?output=json"

/-! ## Claim C1 -/

/-- C1 (amended): on a refresh of a stored entry where the fresh item's
content hash equals the stored entry's non-empty hash, the entry published
to the map has `timestamp = now`, `json` = the fresh body, `maxAge` = the
wrapping `uint64` sum `old maxAge + old baseMaxAge` capped at
`MaxCacheLifetime` (`extendedMaxAge`), `baseMaxAge` = the old `baseMaxAge`,
and `contentHash` = the old hash.  Whenever the sum does not wrap around
2^64 — every realistic configuration — the published `maxAge` equals
`min(old maxAge + old baseMaxAge, MaxCacheLifetime)` exactly as the claim
states. -/
theorem claim_C1_amended (w : World) (cache : BigFixCache) (url : String)
    (sc : BigFixServerCache) (cm newItem : CacheItem) (sc' : BigFixServerCache)
    (hsc : mfind cache.serverCache (getBaseUrl url) = some sc)
    (hcm : mfind sc.cacheMap url = some cm)
    (href : needsRefreshB w.now cm = true)
    (hret : retrieveBigFixData w url sc = (.ok newItem, sc'))
    (hhash : cm.contentHash ≠ "" ∧ newItem.contentHash = cm.contentHash) :
    cacheGet w cache url =
      (.ok (⟨w.now, newItem.json,
          extendedMaxAge cache.maxCacheLifetime cm.maxAge cm.baseMaxAge,
          cm.baseMaxAge, cm.contentHash⟩ : CacheItem),
       { cache with serverCache := (mstore cache.serverCache (getBaseUrl url)
           ({ sc' with cacheMap := (mstore sc'.cacheMap url
               (⟨w.now, newItem.json,
                 extendedMaxAge cache.maxCacheLifetime cm.maxAge cm.baseMaxAge,
                 cm.baseMaxAge, cm.contentHash⟩ : CacheItem)) })) }) ∧
    (cm.maxAge + cm.baseMaxAge < u64Mod →
      extendedMaxAge cache.maxCacheLifetime cm.maxAge cm.baseMaxAge =
        min (cm.maxAge + cm.baseMaxAge) cache.maxCacheLifetime) := by
  constructor
  · have h := cacheGet_refresh w cache url sc cm newItem sc' hsc hcm href hret
    rw [refreshedItem_match cache.maxCacheLifetime w.now cm newItem hhash] at h
    exact h
  · intro hlt
    unfold extendedMaxAge
    rw [Nat.mod_eq_of_lt hlt]
    by_cases hgt : cm.maxAge + cm.baseMaxAge > cache.maxCacheLifetime
    · simp only [hgt, if_true]
      exact (Nat.min_eq_right (Nat.le_of_lt hgt)).symm
    · simp only [hgt, if_false]
      exact (Nat.min_eq_left (Nat.le_of_not_lt hgt)).symm

/-- C1 witness: a concrete hash-match refresh (stored entry aged out, fresh
body identical) publishing `maxAge = 300 + 300 = 600 = min(600, 86400)`. -/
theorem claim_C1_witness :
    cacheGet (mkWorld "OLD" 1000)
      (⟨[("https://h:1",
          ⟨"https://h:1", "u", "p", some ⟨2, 2, false⟩,
           [(urlQ, ⟨500, "OLD", 300, 300, "MD5-OLD"⟩)], 300⟩)], 300, 86400⟩)
      urlQ =
      (.ok (⟨1000, "OLD", 600, 300, "MD5-OLD"⟩ : CacheItem),
       ⟨[(getBaseUrl urlQ,
          ⟨"https://h:1", "u", "p", some ⟨2, 2, false⟩,
           [(urlQ, ⟨1000, "OLD", 600, 300, "MD5-OLD"⟩)], 300⟩)], 300, 86400⟩) ∧
    (300 + 300 < u64Mod → (600 : Nat) = min (300 + 300) 86400) := by
  have h := claim_C1_amended (mkWorld "OLD" 1000)
    (⟨[("https://h:1",
        ⟨"https://h:1", "u", "p", some ⟨2, 2, false⟩,
         [(urlQ, ⟨500, "OLD", 300, 300, "MD5-OLD"⟩)], 300⟩)], 300, 86400⟩)
    urlQ
    (⟨"https://h:1", "u", "p", some ⟨2, 2, false⟩,
      [(urlQ, ⟨500, "OLD", 300, 300, "MD5-OLD"⟩)], 300⟩)
    (⟨500, "OLD", 300, 300, "MD5-OLD"⟩ : CacheItem)
    (⟨1000, "OLD", 300, 300, "MD5-OLD"⟩ : CacheItem)
    (⟨"https://h:1", "u", "p", some ⟨2, 2, false⟩,
      [(urlQ, ⟨500, "OLD", 300, 300, "MD5-OLD"⟩)], 300⟩)
    (by decide) (by decide) (by decide) (by decide)
    (by constructor
        · decide
        · decide)
  exact ⟨by simpa [mstore] using h.1, h.2⟩

/-- The largest `uint64` value, a legal configuration value for TTLs and the
lifetime ceiling. -/
def u64Max : Nat := 2 ^ 64 - 1

/-- A reachable state in which a tombstoned entry carries
`maxAge = baseMaxAge = 2^64 - 1`: the cache is created by
`GetCache(300, 2^64-1)`, a server is registered with `maxAge = 2^64-1`, the
URL is fetched once, and the sweeper tombstones it (any positive age exceeds
`int64(2^64-1) = -1`). -/
def c1Pre : BigFixCache :=
  runOps ⟨[], 300, u64Max⟩
    [.add "https://h:1" "u" "p" 1 u64Max,
     .get (mkWorld "RAW" 1000) urlQ,
     .sweep 1001]

/-- C1 counterexample: the claim's formula
`maxAge = min(old maxAge + old baseMaxAge, MaxCacheLifetime)` fails on the
code when the `uint64` sum wraps.  In the reachable state `c1Pre` the stored
entry needs refresh (empty `json`), the fresh fetch returns the
byte-identical body with the same non-empty hash, and the published entry's
`maxAge` is the wrapped sum `2^64 - 2`, not
`min((2^64-1) + (2^64-1), 2^64-1) = 2^64 - 1`. -/
theorem claim_C1_counterexample :
    getCache none 300 u64Max = (⟨[], 300, u64Max⟩, some ⟨[], 300, u64Max⟩) ∧
    c1Pre = ⟨[("https://h:1",
        ⟨"https://h:1", "u", "p", some ⟨1, 1, false⟩,
         [(urlQ, ⟨1000, "", u64Max, u64Max, "MD5-RAW"⟩)], u64Max⟩)],
      300, u64Max⟩ ∧
    (retrieveBigFixData (mkWorld "RAW" 1002) urlQ
        ⟨"https://h:1", "u", "p", some ⟨1, 1, false⟩,
         [(urlQ, ⟨1000, "", u64Max, u64Max, "MD5-RAW"⟩)], u64Max⟩).1 =
      .ok ⟨1002, "RAW", u64Max, u64Max, "MD5-RAW"⟩ ∧
    (cacheGet (mkWorld "RAW" 1002) c1Pre urlQ).1 =
      .ok ⟨1002, "RAW", u64Mod - 2, u64Max, "MD5-RAW"⟩ ∧
    u64Mod - 2 ≠ min (u64Max + u64Max) c1Pre.maxCacheLifetime := by
  refine ⟨by decide, by decide, by decide, by decide, by decide⟩

/-! ## Claim C2 -/

/-- C2: on a refresh where the freshly fetched hash differs from the stored
hash (or the stored hash is empty), the published entry has
`timestamp = now`, `json` = the fresh body, `maxAge` = the stored entry's
`baseMaxAge` (reset to base, not the fresh item's `maxAge`),
`baseMaxAge` unchanged, and `contentHash` = the fresh hash. -/
theorem claim_C2 (w : World) (cache : BigFixCache) (url : String)
    (sc : BigFixServerCache) (cm newItem : CacheItem) (sc' : BigFixServerCache)
    (hsc : mfind cache.serverCache (getBaseUrl url) = some sc)
    (hcm : mfind sc.cacheMap url = some cm)
    (href : needsRefreshB w.now cm = true)
    (hret : retrieveBigFixData w url sc = (.ok newItem, sc'))
    (hhash : cm.contentHash = "" ∨ newItem.contentHash ≠ cm.contentHash) :
    cacheGet w cache url =
      (.ok (⟨w.now, newItem.json, cm.baseMaxAge, cm.baseMaxAge,
          newItem.contentHash⟩ : CacheItem),
       { cache with serverCache := (mstore cache.serverCache (getBaseUrl url)
           ({ sc' with cacheMap := (mstore sc'.cacheMap url
               (⟨w.now, newItem.json, cm.baseMaxAge, cm.baseMaxAge,
                 newItem.contentHash⟩ : CacheItem)) })) }) := by
  have h := cacheGet_refresh w cache url sc cm newItem sc' hsc hcm href hret
  rw [refreshedItem_differ cache.maxCacheLifetime w.now cm newItem hhash] at h
  exact h

/-- C2 witness: a concrete changed-content refresh.  The stored entry has
`maxAge = 900` (previously extended), the fresh body differs, and the
published entry resets `maxAge` to `baseMaxAge = 300` with the new hash. -/
theorem claim_C2_witness :
    cacheGet (mkWorld "NEW" 2000)
      (⟨[("https://h:1",
          ⟨"https://h:1", "u", "p", some ⟨2, 2, false⟩,
           [(urlQ, ⟨500, "OLD", 900, 300, "MD5-OLD"⟩)], 300⟩)], 300, 86400⟩)
      urlQ =
      (.ok (⟨2000, "NEW", 300, 300, "MD5-NEW"⟩ : CacheItem),
       ⟨[(getBaseUrl urlQ,
          ⟨"https://h:1", "u", "p", some ⟨2, 2, false⟩,
           [(urlQ, ⟨2000, "NEW", 300, 300, "MD5-NEW"⟩)], 300⟩)], 300, 86400⟩) := by
  have h := claim_C2 (mkWorld "NEW" 2000)
    (⟨[("https://h:1",
        ⟨"https://h:1", "u", "p", some ⟨2, 2, false⟩,
         [(urlQ, ⟨500, "OLD", 900, 300, "MD5-OLD"⟩)], 300⟩)], 300, 86400⟩)
    urlQ
    (⟨"https://h:1", "u", "p", some ⟨2, 2, false⟩,
      [(urlQ, ⟨500, "OLD", 900, 300, "MD5-OLD"⟩)], 300⟩)
    (⟨500, "OLD", 900, 300, "MD5-OLD"⟩ : CacheItem)
    (⟨2000, "NEW", 300, 300, "MD5-NEW"⟩ : CacheItem)
    (⟨"https://h:1", "u", "p", some ⟨2, 2, false⟩,
      [(urlQ, ⟨500, "OLD", 900, 300, "MD5-OLD"⟩)], 300⟩)
    (by decide) (by decide) (by decide) rfl
    (Or.inr (by decide))
  simpa [mstore] using h

/-! ## Claim C3 -/

/-- C3: evaluation of the code at the failing input.  On a hit (entry
present, non-empty, unexpired) `Get` returns the stored `CacheItem`
unchanged and writes nothing back: the cache state after the call is
byte-identical to the state before it.  The source `CacheItem`
(bfcache.go:48-54, modelled field-for-field above) has exactly the five
fields `Timestamp`, `Json`, `MaxAge`, `BaseMaxAge`, `ContentHash` — there is
no `hitCount`/`missCount` field to increment, and the hit path
(bfcache.go:313-318) performs no store. -/
theorem claim_C3_code_eval :
    cacheGet (mkWorld "RAW" 1000)
      (⟨[("https://h:1",
          ⟨"https://h:1", "u", "p", some ⟨2, 2, false⟩,
           [("https://h:1/api/stuff", ⟨999, "BODY", 300, 300, "MD5-BODY"⟩)],
           300⟩)], 300, 86400⟩)
      "https://h:1/api/stuff" =
      (.ok (⟨999, "BODY", 300, 300, "MD5-BODY"⟩ : CacheItem),
       ⟨[("https://h:1",
          ⟨"https://h:1", "u", "p", some ⟨2, 2, false⟩,
           [("https://h:1/api/stuff", ⟨999, "BODY", 300, 300, "MD5-BODY"⟩)],
           300⟩)], 300, 86400⟩) := by
  decide

/-! ## Claim C4 -/

/-- A world whose upstream always answers 404 with body `NOTFOUND`. -/
def w404 : World :=
  ⟨fun _ => .response ⟨404, "NOTFOUND"⟩, fun _ => none, fun _ => none,
   fun _ => none, fun _ => none, fun s => "MD5-" ++ s, 1000⟩

/-- A world whose transport always fails. -/
def wRefuse : World :=
  ⟨fun _ => .transportError "connection refused", fun _ => none, fun _ => none,
   fun _ => none, fun _ => none, fun s => "MD5-" ++ s, 1000⟩

/-- C4 counterexample: the upstream answers with the non-2xx status 404, yet
`BFConnection.Get` returns the body with a nil error (the status code is
never examined, bfconnection.go:20-40), `retrieveBigFixData` builds a cache
item from the 404 body, and `Get` stores it. -/
theorem claim_C4_counterexample :
    w404.fetch urlQ = .response ⟨404, "NOTFOUND"⟩ ∧
    connGet (w404.fetch urlQ) = .ok "NOTFOUND" ∧
    (retrieveBigFixData w404 urlQ
        ⟨"https://h:1", "u", "p", some ⟨1, 1, false⟩, [], 300⟩).1 =
      .ok ⟨1000, "NOTFOUND", 300, 300, "MD5-NOTFOUND"⟩ ∧
    (cacheGet w404
        (⟨[("https://h:1",
            ⟨"https://h:1", "u", "p", some ⟨1, 1, false⟩, [], 300⟩)],
          300, 86400⟩) urlQ).1 =
      .ok ⟨1000, "NOTFOUND", 300, 300, "MD5-NOTFOUND"⟩ := by
  refine ⟨rfl, rfl, by decide, by decide⟩

/-- C4 (amended): the fetch never examines the HTTP status code.
`BFConnection.Get` fails exactly when the transport fails (request creation,
`Do`, or reading the body); any delivered response body — whatever the
status — is returned with a nil error and processed like a success, so it
can become a cache entry.  On a transport error the fetch fails, produces no
item, and the connection pool is left as it was found. -/
theorem claim_C4_amended (w : World) (urlStr : String) (sc : BigFixServerCache)
    (r : HttpResponse) (e : String) :
    (w.fetch urlStr = .response r → connGet (w.fetch urlStr) = .ok r.body) ∧
    (w.fetch urlStr = .transportError e →
      connGet (w.fetch urlStr) = .error e) ∧
    (w.fetch urlStr = .transportError e →
      (∀ cm : CacheItem, (retrieveBigFixData w urlStr sc).1 ≠ .ok cm) ∧
      (retrieveBigFixData w urlStr sc).2 = sc) := by
  refine ⟨fun hf => by rw [hf]; rfl, fun hf => by rw [hf]; rfl, fun hf => ?_⟩
  refine ⟨fun cm hok => ?_, retrieveBigFixData_shard_eq w urlStr sc⟩
  obtain ⟨-, -, -, raw, hfetch, -, -⟩ :=
    retrieveBigFixData_ok_fields w urlStr sc cm hok
  rw [hf] at hfetch
  exact Except.noConfusion hfetch

/-- C4 amended witness: a 404 body is passed through as a success; a refused
connection surfaces as an error and leaves the shard untouched. -/
theorem claim_C4_amended_witness :
    connGet (w404.fetch urlQ) = .ok "NOTFOUND" ∧
    connGet (wRefuse.fetch urlQ) = .error "connection refused" ∧
    (retrieveBigFixData wRefuse urlQ
        ⟨"https://h:1", "u", "p", some ⟨1, 1, false⟩, [], 300⟩).2 =
      ⟨"https://h:1", "u", "p", some ⟨1, 1, false⟩, [], 300⟩ :=
  ⟨(claim_C4_amended w404 urlQ
      ⟨"https://h:1", "u", "p", some ⟨1, 1, false⟩, [], 300⟩
      ⟨404, "NOTFOUND"⟩ "connection refused").1 rfl,
   (claim_C4_amended wRefuse urlQ
      ⟨"https://h:1", "u", "p", some ⟨1, 1, false⟩, [], 300⟩
      ⟨404, "NOTFOUND"⟩ "connection refused").2.1 rfl,
   ((claim_C4_amended wRefuse urlQ
      ⟨"https://h:1", "u", "p", some ⟨1, 1, false⟩, [], 300⟩
      ⟨404, "NOTFOUND"⟩ "connection refused").2.2 rfl).2⟩

/-! ## Claim C7 -/

/-- C7: for every fetch whose request URL has a path containing `/api/query`
and a query string carrying `output=json` or `format=json`, a successful
fetch yields an item whose `json` field is the raw upstream response body
verbatim and whose `contentHash` is the digest of those same raw bytes.  The
final conjunct states that no XML parsing or transformation takes place: the
body transform returns the raw body unchanged for every possible behaviour
of the XML decoder and JSON encoder. -/
theorem claim_C7 (w : World) (urlStr : String) (sc : BigFixServerCache)
    (cm : CacheItem)
    (hpath : strContains (parseURLm urlStr).path "/api/query" = true)
    (hfmt : queryGetParam (parseURLm urlStr).rawQuery "output" = "json" ∨
            queryGetParam (parseURLm urlStr).rawQuery "format" = "json")
    (hok : (retrieveBigFixData w urlStr sc).1 = .ok cm) :
    ∃ raw, connGet (w.fetch urlStr) = .ok raw ∧
      cm.json = raw ∧ cm.contentHash = w.md5Hex raw ∧
      ∀ w2 : World, transformBody w2 urlStr raw = .ok raw := by
  have hjson : isJsonQueryURL urlStr = true := by
    simp only [isJsonQueryURL, hpath, if_true]
    rcases hfmt with h | h <;> simp [h]
  obtain ⟨-, -, -, raw, hfetch, htrans, hhash⟩ :=
    retrieveBigFixData_ok_fields w urlStr sc cm hok
  have htB : transformBody w urlStr raw = .ok raw := by
    simp [transformBody, hjson]
  have hj : cm.json = raw := by
    rw [htB] at htrans
    exact (Except.ok.inj htrans).symm
  exact ⟨raw, hfetch, hj, hhash, fun w2 => by simp [transformBody, hjson]⟩

/-- C7 witness: a concrete JSON-format query fetch whose stored body is the
404-free raw body `RAWBODY` and whose hash is the digest of `RAWBODY`. -/
theorem claim_C7_witness :
    ∃ raw, connGet ((mkWorld "RAWBODY" 1000).fetch urlQ) = .ok raw ∧
      (⟨1000, "RAWBODY", 300, 300, "MD5-RAWBODY"⟩ : CacheItem).json = raw ∧
      (⟨1000, "RAWBODY", 300, 300, "MD5-RAWBODY"⟩ : CacheItem).contentHash =
        (mkWorld "RAWBODY" 1000).md5Hex raw ∧
      ∀ w2 : World, transformBody w2 urlQ raw = .ok raw :=
  claim_C7 (mkWorld "RAWBODY" 1000) urlQ
    ⟨"https://h:1", "u", "p", some ⟨1, 1, false⟩, [], 300⟩
    ⟨1000, "RAWBODY", 300, 300, "MD5-RAWBODY"⟩
    (by decide) (Or.inl (by decide)) (by decide)

/-! ## Claim C8 -/

theorem cutAtChar_some_not_mem (c : Char) (l a b : List Char)
    (h : cutAtChar c l = some (a, b)) : c ∉ a := by
  induction l generalizing a b with
  | nil => exact absurd h (by simp [cutAtChar])
  | cons x xs ih =>
    by_cases hx : x == c
    · simp only [cutAtChar, hx, if_true] at h
      injection h with h2
      have ha : ([] : List Char) = a := congrArg Prod.fst h2
      rw [← ha]
      exact List.not_mem_nil c
    · simp only [cutAtChar, hx, Bool.false_eq_true, if_false] at h
      cases hrec : cutAtChar c xs with
      | none =>
        simp only [hrec] at h
        exact Option.noConfusion h
      | some pr =>
        obtain ⟨a2, b2⟩ := pr
        simp only [hrec] at h
        injection h with h2
        have ha : x :: a2 = a := congrArg Prod.fst h2
        rw [← ha]
        intro hmem
        rcases List.mem_cons.mp hmem with h1 | h1
        · exact absurd (beq_iff_eq.mpr h1.symm) (by simpa using hx)
        · exact ih a2 b2 hrec h1

theorem cutAtChar_none_not_mem (c : Char) (l : List Char)
    (h : cutAtChar c l = none) : c ∉ l := by
  induction l with
  | nil => exact List.not_mem_nil c
  | cons x xs ih =>
    by_cases hx : x == c
    · simp [cutAtChar, hx] at h
    · simp only [cutAtChar, hx, Bool.false_eq_true, if_false] at h
      cases hrec : cutAtChar c xs with
      | none =>
        intro hmem
        rcases List.mem_cons.mp hmem with h1 | h1
        · exact absurd (beq_iff_eq.mpr h1.symm) (by simpa using hx)
        · exact ih hrec h1
      | some pr =>
        rw [hrec] at h
        exact absurd h (by simp)

theorem cutAtChar_mem_of_mem_left (c : Char) (l a b : List Char)
    (h : cutAtChar c l = some (a, b)) : ∀ x ∈ a, x ∈ l := by
  induction l generalizing a b with
  | nil => exact absurd h (by simp [cutAtChar])
  | cons y ys ih =>
    by_cases hy : y == c
    · simp only [cutAtChar, hy, if_true] at h
      injection h with h2
      have ha : ([] : List Char) = a := congrArg Prod.fst h2
      rw [← ha]
      intro x hx
      exact absurd hx (List.not_mem_nil x)
    · simp only [cutAtChar, hy, Bool.false_eq_true, if_false] at h
      cases hrec : cutAtChar c ys with
      | none =>
        simp only [hrec] at h
        exact Option.noConfusion h
      | some pr =>
        obtain ⟨a2, b2⟩ := pr
        simp only [hrec] at h
        injection h with h2
        have ha : y :: a2 = a := congrArg Prod.fst h2
        rw [← ha]
        intro x hx
        rcases List.mem_cons.mp hx with h1 | h1
        · exact h1 ▸ List.mem_cons_self y ys
        · exact List.mem_cons_of_mem y (ih a2 b2 hrec x h1)

/-- For an absolute URL the parsed host contains neither `/` nor `?`: it is
cut off at the first of either delimiter. -/
theorem parseURLm_host_clean (s : String) (sch rest : List Char)
    (hcut : cutAtSub "://".data s.data = some (sch, rest)) :
    '/' ∉ (parseURLm s).host.data ∧ '?' ∉ (parseURLm s).host.data := by
  cases hq : cutAtChar '?' rest with
  | none =>
    cases hs : cutAtChar '/' rest with
    | none =>
      have hh : (parseURLm s).host = String.mk rest := by
        simp [parseURLm, hcut, hq, hs]
      rw [hh]
      exact ⟨cutAtChar_none_not_mem _ _ hs, cutAtChar_none_not_mem _ _ hq⟩
    | some pr =>
      obtain ⟨a, b⟩ := pr
      have hh : (parseURLm s).host = String.mk a := by
        simp [parseURLm, hcut, hq, hs]
      rw [hh]
      refine ⟨cutAtChar_some_not_mem _ _ _ _ hs, fun hmem => ?_⟩
      exact cutAtChar_none_not_mem _ _ hq
        (cutAtChar_mem_of_mem_left _ _ _ _ hs _ hmem)
  | some prq =>
    obtain ⟨bq, q⟩ := prq
    cases hs : cutAtChar '/' bq with
    | none =>
      have hh : (parseURLm s).host = String.mk bq := by
        simp [parseURLm, hcut, hq, hs]
      rw [hh]
      exact ⟨cutAtChar_none_not_mem _ _ hs, cutAtChar_some_not_mem _ _ _ _ hq⟩
    | some pr =>
      obtain ⟨a, b⟩ := pr
      have hh : (parseURLm s).host = String.mk a := by
        simp [parseURLm, hcut, hq, hs]
      rw [hh]
      refine ⟨cutAtChar_some_not_mem _ _ _ _ hs, fun hmem => ?_⟩
      exact cutAtChar_some_not_mem _ _ _ _ hq
        (cutAtChar_mem_of_mem_left _ _ _ _ hs _ hmem)

/-- Modelled from the spec: the canonical base-URL form the spec asserts —
`scheme://host[:port]`, no path, no query — rendered as a decidable check:
a nonempty scheme, then `://`, then a nonempty host free of `:`, `/` and
`?`, optionally followed by `:` and a nonempty port.  This definition
follows the spec's words (for comparison with `getBaseUrl`), not the
source. -/
def isCanonicalBaseUrl (s : String) : Bool :=
  match cutAtSub "://".data s.data with
  | none => false
  | some (sch, rest) =>
    (!sch.isEmpty) &&
    (!rest.any (fun c => c == '/' || c == '?')) &&
    (match splitOnChar ':' rest with
     | [h] => !h.isEmpty
     | [h, p] => (!h.isEmpty) && (!p.isEmpty)
     | _ => false)

/-- C8 counterexample: for the well-formed request URL
`https://bigfix.example.com/api/computers` (no explicit port) the derived
shard key is `https://bigfix.example.com:` — a trailing colon with an empty
port — which is not of the form `scheme://host[:port]`.  With an explicit
port the form is as claimed. -/
theorem claim_C8_counterexample :
    getBaseUrl "https://bigfix.example.com/api/computers" =
      "https://bigfix.example.com:" ∧
    isCanonicalBaseUrl (getBaseUrl "https://bigfix.example.com/api/computers")
      = false ∧
    isCanonicalBaseUrl
      (getBaseUrl "https://bigfix.example.com:52311/api/computers") = true := by
  refine ⟨by decide, by decide, by decide⟩

/-- C8 (amended): for every absolute request URL the derived base URL is
`scheme ++ "://" ++ host ++ ":" ++ port`, where `port` is the explicit port
when the URL carries one and the **empty string** otherwise (leaving a
trailing colon); it contains no path and no query because the parsed host
contains neither `/` nor `?`. -/
theorem claim_C8_amended (url : String) (sch rest : List Char)
    (hcut : cutAtSub "://".data url.data = some (sch, rest)) :
    ('/' ∉ (parseURLm url).host.data ∧ '?' ∉ (parseURLm url).host.data) ∧
    (strContains (parseURLm url).host ":" = false →
      getBaseUrl url =
        (parseURLm url).scheme ++ "://" ++ (parseURLm url).host ++ ":") ∧
    (strContains (parseURLm url).host ":" = true →
      getBaseUrl url = (parseURLm url).scheme ++ "://" ++
        (strSplitChar (parseURLm url).host ':').getD 0 "" ++ ":" ++
        (strSplitChar (parseURLm url).host ':').getD 1 "") := by
  refine ⟨parseURLm_host_clean url sch rest hcut, fun hnc => ?_, fun hc => ?_⟩
  · simp only [getBaseUrl, hnc, Bool.false_eq_true, if_false,
      String.append_empty]
  · simp only [getBaseUrl, hc, if_true]

/-- C8 amended witness: the two concrete shapes, without and with an
explicit port. -/
theorem claim_C8_amended_witness :
    (strContains (parseURLm "https://bigfix.example.com/a").host ":" = false →
      getBaseUrl "https://bigfix.example.com/a" =
        (parseURLm "https://bigfix.example.com/a").scheme ++ "://" ++
        (parseURLm "https://bigfix.example.com/a").host ++ ":") ∧
    (strContains (parseURLm "https://h:52311/a").host ":" = true →
      getBaseUrl "https://h:52311/a" =
        (parseURLm "https://h:52311/a").scheme ++ "://" ++
        (strSplitChar (parseURLm "https://h:52311/a").host ':').getD 0 "" ++
        ":" ++
        (strSplitChar (parseURLm "https://h:52311/a").host ':').getD 1 "") :=
  ⟨(claim_C8_amended "https://bigfix.example.com/a"
      "https".data "bigfix.example.com/a".data (by decide)).2.1,
   (claim_C8_amended "https://h:52311/a"
      "https".data "h:52311/a".data (by decide)).2.2⟩

/-! ## Claim C5 -/

theorem mfind_map_value {α : Type} (g : α → α) (m : List (String × α))
    (k : String) :
    mfind (m.map (fun p => (p.1, g p.2))) k = (mfind m k).map g := by
  induction m with
  | nil => rfl
  | cons p ps ih =>
    by_cases hp : p.1 = k
    · have hf : (p.1 == k) = true := by simp [hp]
      simp only [List.map_cons, mfind, List.find?_cons, hf]
      rfl
    · have hf : (p.1 == k) = false := by simp [hp]
      simp only [List.map_cons, mfind, List.find?_cons, hf]
      exact ih

/-- C5 (amended): one sweeper run maps every shard through `sweepShard` and
every stored entry through `sweptValue`: an entry is replaced by a tombstone
— same `timestamp`, `maxAge`, `baseMaxAge`, `contentHash`, empty `json` —
exactly when `now − timestamp > int64(maxAge)` (the source compares against
the stored `uint64` TTL reinterpreted as a signed 64-bit value); every other
entry is left unchanged.  For every `maxAge < 2^63` — every realistic TTL —
the trigger is exactly the claimed `now − timestamp > maxAge`. -/
theorem claim_C5_amended (now : Int) (cache : BigFixCache)
    (base url : String) (sc : BigFixServerCache) (cm : CacheItem)
    (hsc : mfind cache.serverCache base = some sc)
    (hcm : mfind sc.cacheMap url = some cm) :
    mfind (sweepExpiredItems now cache).serverCache base =
      some (sweepShard now sc) ∧
    mfind (sweepShard now sc).cacheMap url = some (sweptValue now cm) ∧
    (now - cm.timestamp > toInt64 cm.maxAge →
      sweptValue now cm =
        ⟨cm.timestamp, "", cm.maxAge, cm.baseMaxAge, cm.contentHash⟩) ∧
    (¬ now - cm.timestamp > toInt64 cm.maxAge → sweptValue now cm = cm) ∧
    (cm.maxAge < 2 ^ 63 → toInt64 cm.maxAge = (cm.maxAge : Int)) := by
  refine ⟨?_, ?_, fun hexp => ?_, fun hexp => ?_, fun hlt => ?_⟩
  · unfold sweepExpiredItems
    rw [mfind_map_value (sweepShard now) cache.serverCache base, hsc]
    rfl
  · unfold sweepShard
    show mfind (sc.cacheMap.map (fun p => (p.1, sweptValue now p.2))) url = _
    rw [mfind_map_value (sweptValue now) sc.cacheMap url, hcm]
    rfl
  · simp [sweptValue, hexp]
  · simp [sweptValue, hexp]
  · have hlt2 : cm.maxAge < u64Mod := lt_trans hlt (by norm_num [u64Mod])
    unfold toInt64
    rw [Nat.mod_eq_of_lt hlt2, if_pos hlt]

/-- C5 witness: in a shard holding one expired and one fresh entry, the
sweep tombstones the expired one (metadata kept, body cleared) and leaves
the fresh one untouched. -/
theorem claim_C5_witness :
    mfind (sweepExpiredItems 1000
        (⟨[("https://h:1",
            ⟨"https://h:1", "u", "p", some ⟨1, 1, false⟩,
             [("https://h:1/a", ⟨500, "BODYA", 300, 300, "MD5-BODYA"⟩),
              ("https://h:1/b", ⟨900, "BODYB", 300, 300, "MD5-BODYB"⟩)],
             300⟩)], 300, 86400⟩)).serverCache "https://h:1" =
      some (sweepShard 1000
        ⟨"https://h:1", "u", "p", some ⟨1, 1, false⟩,
         [("https://h:1/a", ⟨500, "BODYA", 300, 300, "MD5-BODYA"⟩),
          ("https://h:1/b", ⟨900, "BODYB", 300, 300, "MD5-BODYB"⟩)], 300⟩) ∧
    sweptValue 1000 (⟨500, "BODYA", 300, 300, "MD5-BODYA"⟩ : CacheItem) =
      ⟨500, "", 300, 300, "MD5-BODYA"⟩ ∧
    sweptValue 1000 (⟨900, "BODYB", 300, 300, "MD5-BODYB"⟩ : CacheItem) =
      ⟨900, "BODYB", 300, 300, "MD5-BODYB"⟩ := by
  have h := claim_C5_amended 1000
    (⟨[("https://h:1",
        ⟨"https://h:1", "u", "p", some ⟨1, 1, false⟩,
         [("https://h:1/a", ⟨500, "BODYA", 300, 300, "MD5-BODYA"⟩),
          ("https://h:1/b", ⟨900, "BODYB", 300, 300, "MD5-BODYB"⟩)],
         300⟩)], 300, 86400⟩)
    "https://h:1" "https://h:1/a"
    (⟨"https://h:1", "u", "p", some ⟨1, 1, false⟩,
      [("https://h:1/a", ⟨500, "BODYA", 300, 300, "MD5-BODYA"⟩),
       ("https://h:1/b", ⟨900, "BODYB", 300, 300, "MD5-BODYB"⟩)], 300⟩)
    (⟨500, "BODYA", 300, 300, "MD5-BODYA"⟩ : CacheItem)
    (by decide) (by decide)
  have h2 := claim_C5_amended 1000
    (⟨[("https://h:1",
        ⟨"https://h:1", "u", "p", some ⟨1, 1, false⟩,
         [("https://h:1/a", ⟨500, "BODYA", 300, 300, "MD5-BODYA"⟩),
          ("https://h:1/b", ⟨900, "BODYB", 300, 300, "MD5-BODYB"⟩)],
         300⟩)], 300, 86400⟩)
    "https://h:1" "https://h:1/b"
    (⟨"https://h:1", "u", "p", some ⟨1, 1, false⟩,
      [("https://h:1/a", ⟨500, "BODYA", 300, 300, "MD5-BODYA"⟩),
       ("https://h:1/b", ⟨900, "BODYB", 300, 300, "MD5-BODYB"⟩)], 300⟩)
    (⟨900, "BODYB", 300, 300, "MD5-BODYB"⟩ : CacheItem)
    (by decide) (by decide)
  exact ⟨h.1, h.2.2.1 (by decide), h2.2.2.2.1 (by decide)⟩

/-- A reachable state holding a just-written entry with
`maxAge = baseMaxAge = 2^63` (server registered with that TTL, one fetch at
t = 1000). -/
def c5Pre : BigFixCache :=
  runOps ⟨[], 300, 86400⟩
    [.add "https://h:1" "u" "p" 1 (2 ^ 63),
     .get (mkWorld "RAW" 1000) urlQ]

/-- C5 counterexample: the sweeper tombstones an entry whose age does
**not** exceed its `maxAge`.  In the reachable state `c5Pre` the entry was
written at t = 1000 with `maxAge = 2^63`; sweeping at the same instant
(age 0) still clears the body, because the source compares against
`int64(2^63) = -2^63`, which every age exceeds. -/
theorem claim_C5_counterexample :
    c5Pre = ⟨[("https://h:1",
        ⟨"https://h:1", "u", "p", some ⟨1, 1, false⟩,
         [(urlQ, ⟨1000, "RAW", 2 ^ 63, 2 ^ 63, "MD5-RAW"⟩)], 2 ^ 63⟩)],
      300, 86400⟩ ∧
    ¬ ((1000 : Int) - 1000 > ((2 : Int) ^ 63)) ∧
    mfind (sweepExpiredItems 1000 c5Pre).serverCache "https://h:1" =
      some ⟨"https://h:1", "u", "p", some ⟨1, 1, false⟩,
        [(urlQ, ⟨1000, "", 2 ^ 63, 2 ^ 63, "MD5-RAW"⟩)], 2 ^ 63⟩ := by
  refine ⟨by decide, by decide, by decide⟩

/-! ## Claims C9 and C10 -/

theorem cacheGet_noshard (w : World) (cache : BigFixCache) (url : String)
    (hsc : mfind cache.serverCache (getBaseUrl url) = none) :
    cacheGet w cache url =
      (.error ("server cache does not exist for " ++ getBaseUrl url), cache) := by
  simp only [cacheGet, hsc]

theorem cacheGet_coldmiss_err (w : World) (cache : BigFixCache) (url : String)
    (sc : BigFixServerCache) (e : String) (sc' : BigFixServerCache)
    (hsc : mfind cache.serverCache (getBaseUrl url) = some sc)
    (hcm : mfind sc.cacheMap url = none)
    (hret : retrieveBigFixData w url sc = (.error e, sc')) :
    cacheGet w cache url =
      (.error e,
       { cache with
         serverCache := mstore cache.serverCache (getBaseUrl url) sc' }) := by
  simp only [cacheGet, hsc, hcm, hret]

theorem cacheGet_refresh_err (w : World) (cache : BigFixCache) (url : String)
    (sc : BigFixServerCache) (cm : CacheItem) (e : String)
    (sc' : BigFixServerCache)
    (hsc : mfind cache.serverCache (getBaseUrl url) = some sc)
    (hcm : mfind sc.cacheMap url = some cm)
    (href : needsRefreshB w.now cm = true)
    (hret : retrieveBigFixData w url sc = (.error e, sc')) :
    cacheGet w cache url =
      (.error e,
       { cache with
         serverCache := mstore cache.serverCache (getBaseUrl url) sc' }) := by
  simp only [cacheGet, hsc, hcm, href, hret, if_true]

/-- A `Get` never changes any shard's connection pool: on every path the
shard written back (if any) carries the pool exactly as the fetch left it,
and the fetch restores it. -/
theorem cacheGet_pool_preserved (w : World) (cache : BigFixCache)
    (url base : String) :
    (mfind (cacheGet w cache url).2.serverCache base).map (fun sc => sc.cpool)
      = (mfind cache.serverCache base).map (fun sc => sc.cpool) := by
  cases hsc : mfind cache.serverCache (getBaseUrl url) with
  | none => rw [cacheGet_noshard w cache url hsc]
  | some sc =>
    have hkey : ∀ sc2 : BigFixServerCache, sc2.cpool = sc.cpool →
        (mfind (mstore cache.serverCache (getBaseUrl url) sc2) base).map
            (fun s => s.cpool)
          = (mfind cache.serverCache base).map (fun s => s.cpool) := by
      intro sc2 hpool
      by_cases hbase : base = getBaseUrl url
      · subst hbase
        rw [mfind_mstore_self, hsc]
        simp [hpool]
      · rw [mfind_mstore_ne _ _ _ _ hbase]
    cases hcm : mfind sc.cacheMap url with
    | none =>
      cases hret : retrieveBigFixData w url sc with
      | mk res sc' =>
        have hsc' : sc' = sc := by
          have h := retrieveBigFixData_shard_eq w url sc
          rw [hret] at h
          exact h
        cases res with
        | error e =>
          rw [cacheGet_coldmiss_err w cache url sc e sc' hsc hcm hret]
          exact hkey sc' (by rw [hsc'])
        | ok cm =>
          rw [cacheGet_coldmiss w cache url sc cm sc' hsc hcm hret]
          exact hkey _ (by rw [hsc'])
    | some cm =>
      cases href : needsRefreshB w.now cm with
      | false => rw [cacheGet_hit w cache url sc cm hsc hcm href]
      | true =>
        cases hret : retrieveBigFixData w url sc with
        | mk res sc' =>
          have hsc' : sc' = sc := by
            have h := retrieveBigFixData_shard_eq w url sc
            rw [hret] at h
            exact h
          cases res with
          | error e =>
            rw [cacheGet_refresh_err w cache url sc cm e sc' hsc hcm href hret]
            exact hkey sc' (by rw [hsc'])
          | ok newItem =>
            rw [cacheGet_refresh w cache url sc cm newItem sc' hsc hcm href hret]
            exact hkey _ (by rw [hsc'])

/-- C9: connection conservation.  (1) A fetch returns the shard — in
particular its pool — exactly as it found it: the acquired connection is
released on the success path and on every error path.  (2) `NewPool(size)`
fills the pool with exactly `size` available connections.  (3) Consequently
a `Get` leaves every shard's pool untouched, so a pool at rest holds exactly
`poolSize` connections.  (4) A successful `AddServer` stores a shard whose
pool holds exactly `poolSize` available connections. -/
theorem claim_C9 :
    (∀ (w : World) (urlStr : String) (sc : BigFixServerCache),
      (retrieveBigFixData w urlStr sc).2 = sc) ∧
    (∀ (size : Int) (p : Pool), newPool size = .ok p →
      p.avail = size.toNat ∧ p.size = size.toNat ∧ p.closed = false) ∧
    (∀ (w : World) (cache : BigFixCache) (url base : String),
      (mfind (cacheGet w cache url).2.serverCache base).map
        (fun sc => sc.cpool)
      = (mfind cache.serverCache base).map (fun sc => sc.cpool)) ∧
    (∀ (cache : BigFixCache) (url u p : String) (n : Int) (m : Nat),
      0 < n → mfind cache.serverCache (getBaseUrl url) = none →
      ∃ c', addServer cache url u p n m = .ok c' ∧
        mfind c'.serverCache (getBaseUrl url) =
          some ⟨getBaseUrl url, u, p, some ⟨n.toNat, n.toNat, false⟩, [],
                if m = 0 then cache.maxAge else m⟩) := by
  refine ⟨retrieveBigFixData_shard_eq, fun size p h => ?_,
    cacheGet_pool_preserved, fun cache url u p n m hn hnone => ?_⟩
  · unfold newPool at h
    by_cases hle : size ≤ 0
    · rw [if_pos hle] at h
      exact Except.noConfusion h
    · rw [if_neg hle] at h
      have := Except.ok.inj h
      rw [← this]
      exact ⟨rfl, rfl, rfl⟩
  · have hpool : newPool n = .ok ⟨n.toNat, n.toNat, false⟩ := by
      unfold newPool
      rw [if_neg (by omega)]
    refine ⟨{ cache with serverCache := (mstore cache.serverCache
        (getBaseUrl url)
        ⟨getBaseUrl url, u, p, some ⟨n.toNat, n.toNat, false⟩, [],
         if m = 0 then cache.maxAge else m⟩) }, ?_, ?_⟩
    · simp only [addServer, hnone, hpool]
      rfl
    · exact mfind_mstore_self _ _ _

/-- C9 witness: the conjuncts applied at concrete inputs: a fetch through a
pool of two leaves two available; `NewPool 3` yields three; a concrete `Get`
preserves a shard's pool; `AddServer` with `poolSize = 2` stores a
two-connection pool. -/
theorem claim_C9_witness :
    (retrieveBigFixData (mkWorld "RAW" 1000) urlQ
      ⟨"https://h:1", "u", "p", some ⟨2, 2, false⟩, [], 300⟩).2 =
      ⟨"https://h:1", "u", "p", some ⟨2, 2, false⟩, [], 300⟩ ∧
    ((⟨3, 3, false⟩ : Pool).avail = (3 : Int).toNat ∧
     (⟨3, 3, false⟩ : Pool).size = (3 : Int).toNat ∧
     (⟨3, 3, false⟩ : Pool).closed = false) ∧
    (mfind (cacheGet (mkWorld "RAW" 1000)
        (⟨[("https://h:1",
            ⟨"https://h:1", "u", "p", some ⟨2, 2, false⟩, [], 300⟩)],
          300, 86400⟩) urlQ).2.serverCache "https://h:1").map
        (fun sc => sc.cpool)
      = (mfind
          (⟨[("https://h:1",
              ⟨"https://h:1", "u", "p", some ⟨2, 2, false⟩, [], 300⟩)],
            300, 86400⟩ : BigFixCache).serverCache "https://h:1").map
          (fun sc => sc.cpool) ∧
    (∃ c', addServer ⟨[], 300, 86400⟩ urlQ "u" "p" 2 0 = .ok c' ∧
      mfind c'.serverCache (getBaseUrl urlQ) =
        some ⟨getBaseUrl urlQ, "u", "p", some ⟨(2 : Int).toNat, (2 : Int).toNat,
          false⟩, [], if (0 : Nat) = 0 then (300 : Nat) else 0⟩) :=
  ⟨claim_C9.1 (mkWorld "RAW" 1000) urlQ
     ⟨"https://h:1", "u", "p", some ⟨2, 2, false⟩, [], 300⟩,
   claim_C9.2.1 3 ⟨3, 3, false⟩ rfl,
   claim_C9.2.2.1 (mkWorld "RAW" 1000)
     (⟨[("https://h:1",
         ⟨"https://h:1", "u", "p", some ⟨2, 2, false⟩, [], 300⟩)],
       300, 86400⟩) urlQ "https://h:1",
   claim_C9.2.2.2 ⟨[], 300, 86400⟩ urlQ "u" "p" 2 0 (by decide) (by decide)⟩

/-- C10: `GetCache` is a singleton constructor.  The first call (nil
instance) creates the cache with `MaxAge = 300` when the first argument is
zero (otherwise that argument) and `MaxCacheLifetime = 86400` when the
second argument is zero (otherwise that argument); every later call returns
the existing instance unchanged, its arguments having no effect. -/
theorem claim_C10 :
    (∀ a l : Nat,
      (getCache none a l).1.maxAge = (if a = 0 then 300 else a) ∧
      (getCache none a l).1.maxCacheLifetime = (if l = 0 then 86400 else l) ∧
      (getCache none a l).1.serverCache = [] ∧
      (getCache none a l).2 = some (getCache none a l).1) ∧
    (∀ (c : BigFixCache) (a l : Nat), getCache (some c) a l = (c, some c)) := by
  exact ⟨fun a l => ⟨rfl, rfl, rfl, rfl⟩, fun c a l => rfl⟩

/-! ## Claim C6 -/

theorem mfind_some_mem {α : Type} (m : List (String × α)) (k : String) (v : α)
    (h : mfind m k = some v) : (k, v) ∈ m := by
  unfold mfind at h
  cases hf : m.find? (fun p => p.1 == k) with
  | none => rw [hf] at h; exact Option.noConfusion h
  | some p =>
    rw [hf] at h
    have hmem := List.mem_of_find?_eq_some hf
    have hkey : p.1 = k := by
      have := List.find?_some hf
      exact beq_iff_eq.mp this
    have hval : p.2 = v := Option.some.inj h
    have : (k, v) = p := by
      cases p
      simp only at hkey hval
      rw [hkey, hval]
    rw [this]
    exact hmem

/-- The lifetime-bound invariant: the cache default TTL, every shard's TTL,
and every stored entry's `maxAge` and `baseMaxAge` are at most `L`. -/
def entryBoundsOK (L : Nat) (cache : BigFixCache) : Prop :=
  cache.maxAge ≤ L ∧
  ∀ p ∈ cache.serverCache, p.2.maxAge ≤ L ∧
    ∀ q ∈ p.2.cacheMap, q.2.maxAge ≤ L ∧ q.2.baseMaxAge ≤ L

/-- The proviso the amended C6 needs: `AddServer` is never given a TTL above
the lifetime ceiling. -/
def opMaxAgeLE (L : Nat) : CacheOp → Prop
  | .add _ _ _ _ m => m ≤ L
  | .get _ _ => True
  | .sweep _ => True

theorem refreshedItem_bounds (L : Nat) (now : Int) (cm ni : CacheItem)
    (hb : cm.baseMaxAge ≤ L) :
    (refreshedItem L now cm ni).maxAge ≤ L ∧
    (refreshedItem L now cm ni).baseMaxAge ≤ L := by
  unfold refreshedItem
  by_cases hm : ((cm.contentHash != "") && (ni.contentHash == cm.contentHash))
      = true
  · simp only [hm, if_true]
    refine ⟨?_, hb⟩
    by_cases hgt : (cm.maxAge + cm.baseMaxAge) % u64Mod > L
    · simp only [hgt, if_true]
      exact Nat.le_refl L
    · simp only [hgt, if_false]
      exact Nat.le_of_not_lt hgt
  · simp only [hm, Bool.false_eq_true, if_false]
    exact ⟨hb, hb⟩

theorem sweptValue_fields (now : Int) (item : CacheItem) :
    (sweptValue now item).maxAge = item.maxAge ∧
    (sweptValue now item).baseMaxAge = item.baseMaxAge := by
  unfold sweptValue
  by_cases h : now - item.timestamp > toInt64 item.maxAge
  · simp only [h, if_true]
    exact ⟨by trivial, by trivial⟩
  · simp only [h, if_false]
    exact ⟨by trivial, by trivial⟩

theorem entryBoundsOK_add (L : Nat) (cache : BigFixCache)
    (url u p : String) (n : Int) (m : Nat)
    (hinv : entryBoundsOK L cache) (hm : m ≤ L) :
    entryBoundsOK L (applyOp cache (.add url u p n m)) ∧
    (applyOp cache (.add url u p n m)).maxCacheLifetime =
      cache.maxCacheLifetime := by
  simp only [applyOp]
  cases hfind : mfind cache.serverCache (getBaseUrl url) with
  | some sc0 =>
    simp only [addServer, hfind]
    exact ⟨hinv, by trivial⟩
  | none =>
    simp only [addServer, hfind]
    refine ⟨⟨hinv.1, fun q hq => ?_⟩, by trivial⟩
    rcases mem_mstore hq with hnew | hold
    · rw [hnew]
      constructor
      · by_cases hz : m = 0
        · simp only [hz, if_true]
          exact hinv.1
        · simp only [hz, if_false]
          exact hm
      · intro q2 hq2
        exact absurd hq2 (List.not_mem_nil q2)
    · exact hinv.2 q hold

theorem entryBoundsOK_get (L : Nat) (w : World) (cache : BigFixCache)
    (url : String) (hinv : entryBoundsOK L cache)
    (hLL : cache.maxCacheLifetime = L) :
    entryBoundsOK L (applyOp cache (.get w url)) ∧
    (applyOp cache (.get w url)).maxCacheLifetime = cache.maxCacheLifetime := by
  simp only [applyOp]
  have hstep : ∀ (sc sc2 : BigFixServerCache),
      mfind cache.serverCache (getBaseUrl url) = some sc →
      sc2.maxAge = sc.maxAge →
      (∀ q ∈ sc2.cacheMap, q.2.maxAge ≤ L ∧ q.2.baseMaxAge ≤ L) →
      entryBoundsOK L { cache with
        serverCache := mstore cache.serverCache (getBaseUrl url) sc2 } := by
    intro sc sc2 hsc hma hmap
    refine ⟨hinv.1, fun q hq => ?_⟩
    rcases mem_mstore hq with hnew | hold
    · rw [hnew]
      have hscmem := hinv.2 _ (mfind_some_mem _ _ _ hsc)
      exact ⟨by rw [hma]; exact hscmem.1, hmap⟩
    · exact hinv.2 q hold
  cases hsc : mfind cache.serverCache (getBaseUrl url) with
  | none => rw [cacheGet_noshard w cache url hsc]; exact ⟨hinv, by trivial⟩
  | some sc =>
    have hscmem := hinv.2 _ (mfind_some_mem _ _ _ hsc)
    cases hcm : mfind sc.cacheMap url with
    | none =>
      cases hret : retrieveBigFixData w url sc with
      | mk res sc' =>
        have hsc' : sc' = sc := by
          have h := retrieveBigFixData_shard_eq w url sc
          rw [hret] at h
          exact h
        cases res with
        | error e =>
          rw [cacheGet_coldmiss_err w cache url sc e sc' hsc hcm hret]
          refine ⟨hstep sc sc' hsc (by rw [hsc']) ?_, by trivial⟩
          rw [hsc']
          exact fun q hq => (hscmem.2 q hq)
        | ok cm =>
          rw [cacheGet_coldmiss w cache url sc cm sc' hsc hcm hret]
          have hfields := retrieveBigFixData_ok_fields w url sc cm
            (by rw [hret])
          refine ⟨hstep sc _ hsc (by rw [hsc']) ?_, by trivial⟩
          intro q hq
          rcases mem_mstore hq with hnew | hold
          · rw [hnew]
            simp only
            rw [hfields.2.1, hfields.2.2.1]
            exact ⟨hscmem.1, hscmem.1⟩
          · rw [hsc'] at hold
            exact hscmem.2 q hold
    | some cm =>
      have hcmB := hscmem.2 _ (mfind_some_mem _ _ _ hcm)
      cases href : needsRefreshB w.now cm with
      | false =>
        rw [cacheGet_hit w cache url sc cm hsc hcm href]
        exact ⟨hinv, by trivial⟩
      | true =>
        cases hret : retrieveBigFixData w url sc with
        | mk res sc' =>
          have hsc' : sc' = sc := by
            have h := retrieveBigFixData_shard_eq w url sc
            rw [hret] at h
            exact h
          cases res with
          | error e =>
            rw [cacheGet_refresh_err w cache url sc cm e sc' hsc hcm href hret]
            refine ⟨hstep sc sc' hsc (by rw [hsc']) ?_, by trivial⟩
            rw [hsc']
            exact fun q hq => (hscmem.2 q hq)
          | ok newItem =>
            rw [cacheGet_refresh w cache url sc cm newItem sc' hsc hcm href hret]
            have hri := refreshedItem_bounds cache.maxCacheLifetime w.now cm
              newItem (hLL ▸ hcmB.2)
            refine ⟨hstep sc _ hsc (by rw [hsc']) ?_, by trivial⟩
            intro q hq
            rcases mem_mstore hq with hnew | hold
            · rw [hnew]
              exact ⟨hLL ▸ hri.1, hLL ▸ hri.2⟩
            · rw [hsc'] at hold
              exact hscmem.2 q hold

theorem entryBoundsOK_sweep (L : Nat) (now : Int) (cache : BigFixCache)
    (hinv : entryBoundsOK L cache) :
    entryBoundsOK L (applyOp cache (.sweep now)) ∧
    (applyOp cache (.sweep now)).maxCacheLifetime = cache.maxCacheLifetime := by
  simp only [applyOp, sweepExpiredItems]
  refine ⟨⟨hinv.1, fun q hq => ?_⟩, by trivial⟩
  obtain ⟨q0, hq0, hq0eq⟩ := List.mem_map.mp hq
  have hb := hinv.2 q0 hq0
  rw [← hq0eq]
  refine ⟨hb.1, fun r hr => ?_⟩
  simp only [sweepShard] at hr
  obtain ⟨r0, hr0, hr0eq⟩ := List.mem_map.mp hr
  have hrb := hb.2 r0 hr0
  rw [← hr0eq]
  have hf := sweptValue_fields now r0.2
  exact ⟨hf.1 ▸ hrb.1, hf.2 ▸ hrb.2⟩

/-- C6 (amended): provided every `AddServer` call's TTL argument is at most
`MaxCacheLifetime` (and the cache's default TTL is too — the configuration
contract "`maxLifetime > default TTL`"), then after any sequence of
`AddServer`, `Get` and sweeper operations every stored entry satisfies
`maxAge ≤ MaxCacheLifetime` (and `baseMaxAge ≤ MaxCacheLifetime`), and the
ceiling itself never changes.  Without that proviso the invariant fails: a
fresh fetch stores the shard's configured TTL uncapped (see the
counterexample). -/
theorem claim_C6_amended (init : BigFixCache) (ops : List CacheOp)
    (hinit : entryBoundsOK init.maxCacheLifetime init)
    (hops : ∀ op ∈ ops, opMaxAgeLE init.maxCacheLifetime op) :
    entryBoundsOK init.maxCacheLifetime (runOps init ops) ∧
    (runOps init ops).maxCacheLifetime = init.maxCacheLifetime := by
  have main : ∀ (ops2 : List CacheOp) (c : BigFixCache),
      c.maxCacheLifetime = init.maxCacheLifetime →
      entryBoundsOK init.maxCacheLifetime c →
      (∀ op ∈ ops2, opMaxAgeLE init.maxCacheLifetime op) →
      entryBoundsOK init.maxCacheLifetime (runOps c ops2) ∧
      (runOps c ops2).maxCacheLifetime = init.maxCacheLifetime := by
    intro ops2
    induction ops2 with
    | nil => exact fun c hL hI _ => ⟨hI, hL⟩
    | cons op rest ih =>
      intro c hL hI hO
      have hstep : entryBoundsOK init.maxCacheLifetime (applyOp c op) ∧
          (applyOp c op).maxCacheLifetime = c.maxCacheLifetime := by
        cases op with
        | add url u p n m =>
          exact entryBoundsOK_add _ c url u p n m hI
            (hO _ (List.mem_cons_self _ _))
        | get w url => exact entryBoundsOK_get _ w c url hI hL
        | sweep now => exact entryBoundsOK_sweep _ now c hI
      have hrest := ih (applyOp c op) (by rw [hstep.2]; exact hL) hstep.1
        (fun o ho => hO o (List.mem_cons_of_mem _ ho))
      exact hrest
  exact main ops init rfl hinit hops

/-- C6 amended witness: a concrete run (default config, one server with TTL
600 ≤ 86400, one fetch) whose final state satisfies the bound. -/
theorem claim_C6_amended_witness :
    entryBoundsOK (⟨[], 300, 86400⟩ : BigFixCache).maxCacheLifetime
      (runOps ⟨[], 300, 86400⟩
        [.add "https://h:1" "u" "p" 1 600, .get (mkWorld "RAW" 1000) urlQ]) ∧
    (runOps ⟨[], 300, 86400⟩
        [.add "https://h:1" "u" "p" 1 600,
         .get (mkWorld "RAW" 1000) urlQ]).maxCacheLifetime =
      (⟨[], 300, 86400⟩ : BigFixCache).maxCacheLifetime :=
  claim_C6_amended ⟨[], 300, 86400⟩
    [.add "https://h:1" "u" "p" 1 600, .get (mkWorld "RAW" 1000) urlQ]
    ⟨by norm_num, fun p hp => absurd hp (List.not_mem_nil p)⟩
    (fun op hop => by
      rcases List.mem_cons.mp hop with h | h
      · rw [h]
        simp only [opMaxAgeLE]
        norm_num
      · rcases List.mem_cons.mp h with h2 | h2
        · rw [h2]
          simp only [opMaxAgeLE]
        · exact absurd h2 (List.not_mem_nil op))

/-- A reachable state under the default configuration
(`GetCache(0,0)` ⇒ MaxAge 300, MaxCacheLifetime 86400) after
`AddServer(..., maxAge = 100000)` and one `Get`. -/
def c6Post : BigFixCache :=
  runOps ⟨[], 300, 86400⟩
    [.add "https://h:1" "u" "p" 1 100000, .get (mkWorld "RAW" 1000) urlQ]

/-- C6 counterexample: with a per-server `maxAge` of 100000 (> the 86400
ceiling) the very first fetch stores an entry with
`maxAge = baseMaxAge = 100000`, violating `entry.maxAge ≤ MaxCacheLifetime`:
neither `AddServer` (bfcache.go:104-117) nor the initial store in
`retrieveBigFixData` (bfcache.go:403-413) caps against `MaxCacheLifetime` —
only the hash-match extension path does. -/
theorem claim_C6_counterexample :
    getCache none 0 0 = (⟨[], 300, 86400⟩, some ⟨[], 300, 86400⟩) ∧
    c6Post = ⟨[("https://h:1",
        ⟨"https://h:1", "u", "p", some ⟨1, 1, false⟩,
         [(urlQ, ⟨1000, "RAW", 100000, 100000, "MD5-RAW"⟩)], 100000⟩)],
      300, 86400⟩ ∧
    c6Post.maxCacheLifetime = 86400 ∧
    ¬ (100000 : Nat) ≤ 86400 := by
  refine ⟨by decide, by decide, by decide, by decide⟩
